import Mathlib

/-!
Verification of the delivery-distance-checker pipeline (src/app.py).

The development shallowly embeds the three stages of the program:

* `haversine_distance_km` — the per-row great-circle distance
  (src/app.py lines 9-33), over exact real numbers;
* `normalize_columns` — the column normalizer (lines 36-117), over a
  `Table` model of a pandas `DataFrame` (headers, possibly duplicated,
  plus rows of cells);
* `compute_distances` — the distance stage (lines 120-150);
* `filterAbove` / `sortDesc` / `resultSet` — the threshold filter and
  descending sort of `main` (lines 222-223).

Cells are modelled by `Cell`: `Cell.num q` is a value `pd.to_numeric`
parses to the number `q`, `Cell.text s` is a value it cannot parse
(e.g. the string "N/A"), and `Cell.na` is a missing value (NaN).
Fallible pandas operations are modelled with `Except`/`Option`: a
Python exception is an `Except.error` / `none` result.
-/

namespace DeliveryChecker

/-- A spreadsheet cell as seen by the pipeline: a numeric value, a
non-numeric value (kept as its text), or a missing value (NaN). -/
inductive Cell where
  | num (q : ℚ)
  | text (s : String)
  | na
deriving DecidableEq, Repr

/-- A pandas `DataFrame`: a list of column headers (duplicates allowed,
as pandas allows duplicate column labels) and a list of rows.  A
well-formed frame has every row of the same length as `headers`. -/
structure Table where
  headers : List String
  rows : List (List Cell)
deriving DecidableEq, Repr

/-! ### Haversine distance (src/app.py lines 9-33) -/

/-- `math.radians`: degrees to radians. -/
noncomputable def radians (x : ℝ) : ℝ := x * Real.pi / 180

/-- The intermediate `a` of `haversine_distance_km`
(src/app.py lines 26-29):
`a = sin(dlat/2)**2 + cos(lat1_rad)*cos(lat2_rad)*sin(dlon/2)**2`. -/
noncomputable def haversine_a (lat1 lon1 lat2 lon2 : ℝ) : ℝ :=
  Real.sin ((radians lat2 - radians lat1) / 2) ^ 2 +
    Real.cos (radians lat1) * Real.cos (radians lat2) *
      Real.sin ((radians lon2 - radians lon1) / 2) ^ 2

/-- `haversine_distance_km` (src/app.py lines 9-33): `R = 6371.0`,
`c = 2 * asin(sqrt(a))`, `distance_km = R * c`.  The source applies
`math.asin` to `math.sqrt(a)` with no clamping of `a`; in this exact
real-number embedding `Real.sqrt` and `Real.arcsin` are total. -/
noncomputable def haversine_distance_km (lat1 lon1 lat2 lon2 : ℝ) : ℝ :=
  6371.0 * (2 * Real.arcsin (Real.sqrt (haversine_a lat1 lon1 lat2 lon2)))

/-- The reference haversine formula transcribed from the specification
text (spec §4.2): with all four coordinates converted from degrees to
radians, `a = sin²(dlat/2) + cos(lat1)·cos(lat2)·sin²(dlon/2)`,
`c = 2·asin(sqrt(a))`, `distance_km = 6371.0·c`. -/
noncomputable def haversineSpec (lat1 lon1 lat2 lon2 : ℝ) : ℝ :=
  let lat1r := lat1 * Real.pi / 180
  let lon1r := lon1 * Real.pi / 180
  let lat2r := lat2 * Real.pi / 180
  let lon2r := lon2 * Real.pi / 180
  let dlat := lat2r - lat1r
  let dlon := lon2r - lon1r
  let a := Real.sin (dlat / 2) ^ 2 +
    Real.cos lat1r * Real.cos lat2r * Real.sin (dlon / 2) ^ 2
  let c := 2 * Real.arcsin (Real.sqrt a)
  6371.0 * c

/-! ### Column normalizer (src/app.py lines 36-117) -/

/-- Python `str.strip()`: remove surrounding whitespace.
(`String.trim` is not used because it does not reduce in the kernel.) -/
def pyStrip (s : String) : String :=
  ⟨((s.data.dropWhile Char.isWhitespace).reverse.dropWhile Char.isWhitespace).reverse⟩

/-- Python `str.lower()`. -/
def pyLower (s : String) : String := ⟨s.data.map Char.toLower⟩

/-- `c.strip().lower()` applied to each header (src/app.py line 50). -/
def canonHeader (c : String) : String := pyLower (pyStrip c)

/-- The alias table `col_map` of `normalize_columns`
(src/app.py lines 52-79), as an association list. -/
def col_map : List (String × String) :=
  [("shipment_code", "shipment_code"),
   ("shipment", "shipment_code"),
   ("delivery_lat", "delivery_latitude"),
   ("delivery_latitude", "delivery_latitude"),
   ("delivery_latitude_deg", "delivery_latitude"),
   ("delivery_lng", "delivery_longitude"),
   ("delivery_long", "delivery_longitude"),
   ("delivery_longitude", "delivery_longitude"),
   ("actual_lat", "dropoff_latitude"),
   ("actual_latitude", "dropoff_latitude"),
   ("actual_dropoff_lat", "dropoff_latitude"),
   ("dropoff_lat", "dropoff_latitude"),
   ("actual_lng", "dropoff_longitude"),
   ("actual_longitude", "dropoff_longitude"),
   ("actual_dropoff_long", "dropoff_longitude"),
   ("dropoff_lng", "dropoff_longitude"),
   ("dropoff_long", "dropoff_longitude")]

/-- `df.rename(columns=renamed)` on one header: headers present in
`col_map` are replaced by their canonical name, others are kept
(src/app.py lines 81-86). -/
def mapHeader (c : String) : String := (col_map.lookup c).getD c

/-- The headers of the frame after `df.columns = [c.strip().lower() ...]`
and `df.rename(columns=renamed)` (src/app.py lines 50-86). -/
def mappedHeaders (t : Table) : List String :=
  t.headers.map (fun c => mapHeader (canonHeader c))

/-- `required_cols` (src/app.py lines 88-94). -/
def required_cols : List String :=
  ["shipment_code", "delivery_latitude", "delivery_longitude",
   "dropoff_latitude", "dropoff_longitude"]

/-- `numeric_cols` (src/app.py lines 108-113). -/
def numeric_cols : List String :=
  ["delivery_latitude", "delivery_longitude",
   "dropoff_latitude", "dropoff_longitude"]

/-- `missing = [c for c in required_cols if c not in df.columns]`
(src/app.py line 96), applied to the renamed headers. -/
def missingOf (t : Table) : List String :=
  required_cols.filter (fun c => !((mappedHeaders t).contains c))

/-- The error taxonomy of `normalize_columns`: the `ValueError` raised
for missing required columns (src/app.py lines 97-103), carrying the
required list and the missing sublist that the message interpolates,
and the `TypeError` that `pd.to_numeric` raises when duplicate column
labels make `df[c]` a two-column frame (src/app.py line 115). -/
inductive NormError where
  | missingColumns (required missing : List String)
  | coercionTypeError (c : String)
deriving DecidableEq, Repr

/-- The positions of label `c` in a header list, from offset `k`.
Models how pandas locates the columns carrying a given label. -/
def positionsFrom (hs : List String) (c : String) (k : Nat) : List Nat :=
  match hs with
  | [] => []
  | h :: t => if h == c then k :: positionsFrom t c (k + 1) else positionsFrom t c (k + 1)

/-- All positions of label `c` in a header list. -/
def positionsOf (hs : List String) (c : String) : List Nat := positionsFrom hs c 0

/-- `pd.to_numeric(cell, errors="coerce")` on one cell: numbers stay,
anything unparseable becomes NaN, NaN stays NaN. -/
def to_numeric : Cell → Cell
  | .num q => .num q
  | .text _ => .na
  | .na => .na

/-- `df[c] = pd.to_numeric(df[c], errors="coerce")` for one column `c`
(src/app.py line 115).  If the label `c` occurs exactly once the column
is coerced cell-wise; otherwise `df[c]` is not a Series and
`pd.to_numeric` raises a `TypeError`. -/
def coerceCol (t : Table) (c : String) : Except NormError Table :=
  match positionsOf t.headers c with
  | [i] => .ok ⟨t.headers, t.rows.map (fun r => r.set i (to_numeric (r.getD i .na)))⟩
  | _ => .error (.coercionTypeError c)

/-- The `for c in numeric_cols:` coercion loop (src/app.py lines 114-115). -/
def coerceCols (t : Table) : List String → Except NormError Table
  | [] => .ok t
  | c :: cs =>
    match coerceCol t c with
    | .ok t2 => coerceCols t2 cs
    | .error e => .error e

/-- `df = df[required_cols]` (src/app.py line 105) on the renamed
frame: for each requested name, every column carrying that label is
selected, in frame order (pandas keeps duplicate labels). -/
def projectedTable (t : Table) : Table :=
  let idxs := required_cols.flatMap (fun c => positionsOf (mappedHeaders t) c)
  ⟨idxs.map (fun i => (mappedHeaders t).getD i ""),
   t.rows.map (fun r => idxs.map (fun i => r.getD i .na))⟩

/-- `normalize_columns` (src/app.py lines 36-117): lower/strip headers,
apply the alias map, fail with the missing-columns `ValueError` when a
required canonical column is absent after mapping, project onto
`required_cols`, then coerce the coordinate columns to numeric. -/
def normalize_columns (t : Table) : Except NormError Table :=
  if (missingOf t).isEmpty then coerceCols (projectedTable t) numeric_cols
  else .error (.missingColumns required_cols (missingOf t))

/-! ### Distance stage (src/app.py lines 120-150) -/

/-- A row of the scored frame: the five canonical cells plus the two
appended distance columns (src/app.py lines 147-148). -/
structure ScoredRow where
  cells : List Cell
  distance_km : ℝ
  distance_meters : ℝ

/-- The numeric value of a cell, if it has one. -/
def cellNum : Cell → Option ℚ
  | .num q => some q
  | _ => none

/-- Whether a cell is missing (NaN), as tested by `df.dropna`. -/
def isNA : Cell → Bool
  | .na => true
  | _ => false

/-- Whether a cell is numeric-or-missing, i.e. of float dtype. -/
def numOrNA : Cell → Bool
  | .num _ => true
  | .na => true
  | .text _ => false

/-- `_calc_row` applied to one surviving row (src/app.py lines 139-148):
reads the four coordinates at positions `i1..i4` and appends
`distance_km` and `distance_meters = distance_km * 1000`.  `none`
models the `TypeError` `math.radians` raises on a non-numeric cell. -/
noncomputable def scoreRow (i1 i2 i3 i4 : Nat) (r : List Cell) : Option ScoredRow :=
  match cellNum (r.getD i1 .na), cellNum (r.getD i2 .na),
        cellNum (r.getD i3 .na), cellNum (r.getD i4 .na) with
  | some q1, some q2, some q3, some q4 =>
    some ⟨r, haversine_distance_km (q1 : ℝ) (q2 : ℝ) (q3 : ℝ) (q4 : ℝ),
          haversine_distance_km (q1 : ℝ) (q2 : ℝ) (q3 : ℝ) (q4 : ℝ) * 1000⟩
  | _, _, _, _ => none

/-- `df_valid.apply(_calc_row, axis=1)` over all surviving rows. -/
noncomputable def scoreRows (i1 i2 i3 i4 : Nat) : List (List Cell) → Option (List ScoredRow)
  | [] => some []
  | r :: rs =>
    match scoreRow i1 i2 i3 i4 r, scoreRows i1 i2 i3 i4 rs with
    | some s, some l => some (s :: l)
    | _, _ => none

/-- `compute_distances` (src/app.py lines 120-150): locate the four
coordinate columns, drop the rows with any missing coordinate
(`df.dropna(subset=...)`, lines 129-136), and score each remaining
row.  `none` models a raised exception (missing column, or a
non-numeric cell reaching `haversine_distance_km`). -/
noncomputable def compute_distances (t : Table) : Option (List ScoredRow) :=
  match t.headers.findIdx? (· == "delivery_latitude"),
        t.headers.findIdx? (· == "delivery_longitude"),
        t.headers.findIdx? (· == "dropoff_latitude"),
        t.headers.findIdx? (· == "dropoff_longitude") with
  | some i1, some i2, some i3, some i4 =>
    scoreRows i1 i2 i3 i4
      (t.rows.filter (fun r =>
        !(isNA (r.getD i1 .na)) && !(isNA (r.getD i2 .na)) &&
        !(isNA (r.getD i3 .na)) && !(isNA (r.getD i4 .na))))
  | _, _, _, _ => none

/-- The cell of row `r` in the coordinate column named `c` of frame
`t` (at the first position carrying that label). -/
def coordCell (t : Table) (c : String) (r : List Cell) : Cell :=
  match t.headers.findIdx? (· == c) with
  | some i => r.getD i .na
  | none => .na

/-- A row all four of whose coordinate cells are present: exactly the
rows `df.dropna(subset=...)` keeps. -/
def rowComplete (t : Table) (r : List Cell) : Bool :=
  numeric_cols.all (fun c => !(isNA (coordCell t c r)))

/-! ### Threshold filter and sort (src/app.py lines 222-223) -/

/-- The descending comparison used by
`sort_values("distance_km", ascending=False)`. -/
def distGE (a b : ScoredRow) : Prop := b.distance_km ≤ a.distance_km

noncomputable instance : DecidableRel distGE := fun _ _ => Classical.propDecidable _

instance : IsTotal ScoredRow distGE := ⟨fun a b => le_total b.distance_km a.distance_km⟩

instance : IsTrans ScoredRow distGE := ⟨fun _ _ _ h1 h2 => le_trans h2 h1⟩

open Classical in
/-- `df_with_dist[df_with_dist["distance_km"] > min_km]`
(src/app.py line 222). -/
noncomputable def filterAbove (minKm : ℝ) (rows : List ScoredRow) : List ScoredRow :=
  rows.filter (fun r => decide (minKm < r.distance_km))

/-- `df_result.sort_values("distance_km", ascending=False)`
(src/app.py line 223), modelled as a (stable) sort by the descending
comparison; the claims proved about it do not depend on the tie order. -/
noncomputable def sortDesc (rows : List ScoredRow) : List ScoredRow :=
  List.insertionSort distGE rows

/-- The Result Set: rows strictly above the threshold, sorted by
`distance_km` descending (src/app.py lines 222-223). -/
noncomputable def resultSet (rows : List ScoredRow) (minKm : ℝ) : List ScoredRow :=
  sortDesc (filterAbove minKm rows)

/-- A table already in canonical form: exactly the five canonical
headers in canonical order, full-length rows, and every coordinate
cell numeric or missing (float dtype). -/
def isCanonical (t : Table) : Prop :=
  t.headers = required_cols ∧
    ∀ r ∈ t.rows, r.length = 5 ∧
      ∀ i, 1 ≤ i → i ≤ 4 → numOrNA (r.getD i .na) = true

instance : DecidableEq (Except NormError Table) := fun a b =>
  match a, b with
  | .ok x, .ok y =>
    if h : x = y then .isTrue (by rw [h])
    else .isFalse (by intro hc; cases hc; exact h rfl)
  | .error x, .error y =>
    if h : x = y then .isTrue (by rw [h])
    else .isFalse (by intro hc; cases hc; exact h rfl)
  | .ok _, .error _ => .isFalse (by intro hc; cases hc)
  | .error _, .ok _ => .isFalse (by intro hc; cases hc)

/-! ### Example tables used by witnesses and counterexamples -/

/-- A table whose headers carry two distinct aliases of
`delivery_latitude` (the C3 edge case). -/
def tableDupAlias : Table :=
  ⟨["shipment_code", "delivery_lat", "delivery_latitude", "delivery_longitude",
    "dropoff_lat", "dropoff_lng"],
   [[.text "s", .num 1, .num 2, .num 3, .num 4, .num 5]]⟩

/-- A table missing `dropoff_longitude` and all of its aliases. -/
def tableNoDropLon : Table :=
  ⟨["Shipment", "delivery_lat", "delivery_lng", "ACTUAL_LAT"],
   [[.text "s1", .num 1, .num 2, .num 3]]⟩

/-- A table carrying only a shipment column. -/
def tableOnlyShipment : Table :=
  ⟨["shipment_code"], [[.text "s1"]]⟩

/-- A raw table with aliased headers and one non-numeric
`delivery_lat` cell ("N/A") in its first row. -/
def tableWithBadCell : Table :=
  ⟨["shipment_code", "delivery_lat", "delivery_lng", "dropoff_lat", "dropoff_lng"],
   [[.text "s1", .text "N/A", .num 2, .num 3, .num 4],
    [.text "s2", .num 0, .num 0, .num 0, .num 1]]⟩

/-- `tableWithBadCell` after normalization: the "N/A" cell became
missing. -/
def tableWithBadCellNorm : Table :=
  ⟨required_cols,
   [[.text "s1", .na, .num 2, .num 3, .num 4],
    [.text "s2", .num 0, .num 0, .num 0, .num 1]]⟩

/-- An already-canonical numeric table. -/
def tableCanonical : Table :=
  ⟨required_cols,
   [[.text "s1", .num 1, .num 2, .num 3, .num 4],
    [.text "s2", .na, .num (1/2), .num 0, .num 7]]⟩

/-- The scored row produced for the second row of
`tableWithBadCellNorm`: delivery (0,0), dropoff (0,1). -/
noncomputable def scoredRowEquator : ScoredRow :=
  ⟨[.text "s2", .num 0, .num 0, .num 0, .num 1],
   haversine_distance_km ((0 : ℚ) : ℝ) ((0 : ℚ) : ℝ) ((0 : ℚ) : ℝ) ((1 : ℚ) : ℝ),
   haversine_distance_km ((0 : ℚ) : ℝ) ((0 : ℚ) : ℝ) ((0 : ℚ) : ℝ) ((1 : ℚ) : ℝ) * 1000⟩

/-- Three already-scored rows at 0.5 km, 1.5 km and 2.5 km (the C6
end-to-end example). -/
noncomputable def scoredHalf : ScoredRow := ⟨[.text "r1"], 0.5, 500⟩

noncomputable def scoredOneHalf : ScoredRow := ⟨[.text "r2"], 1.5, 1500⟩

noncomputable def scoredTwoHalf : ScoredRow := ⟨[.text "r3"], 2.5, 2500⟩

/-! ## Theorems -/

/-! ### List-level helper lemmas -/

lemma map_id_of {α : Type} {l : List α} {f : α → α} (h : ∀ a ∈ l, f a = a) :
    l.map f = l := by
  induction l with
  | nil => rfl
  | cons a t ih =>
    rw [List.map_cons, h a (List.mem_cons_self a t),
      ih (fun x hx => h x (List.mem_cons_of_mem a hx))]

lemma getD_set_self {α : Type} (r : List α) (i : Nat) (v d : α) :
    (r.set i v).getD i d = if i < r.length then v else d := by
  induction r generalizing i with
  | nil => simp
  | cons a t ih =>
    cases i with
    | zero => simp
    | succ n => simpa using ih n

lemma getD_set_ne {α : Type} (r : List α) {i j : Nat} (hne : i ≠ j) (v d : α) :
    (r.set i v).getD j d = r.getD j d := by
  induction r generalizing i j with
  | nil => simp
  | cons a t ih =>
    cases i with
    | zero =>
      cases j with
      | zero => exact absurd rfl hne
      | succ m => simp
    | succ n =>
      cases j with
      | zero => simp
      | succ m => simpa using ih (fun hc => hne (by rw [hc]))

lemma set_getD_self {α : Type} (r : List α) (i : Nat) (d : α) :
    r.set i (r.getD i d) = r := by
  induction r generalizing i with
  | nil => rfl
  | cons a t ih =>
    cases i with
    | zero => rfl
    | succ n => simpa using ih n

lemma map_getD_range {α : Type} (l : List α) (d : α) :
    (List.range l.length).map (fun i => l.getD i d) = l := by
  induction l with
  | nil => rfl
  | cons a t ih =>
    rw [List.length_cons, List.range_succ_eq_map, List.map_cons, List.map_map]
    simp only [List.getD_cons_zero, Function.comp_def, List.getD_cons_succ]
    rw [ih]

/-! ### Positions of a label in a header list -/

lemma positionsFrom_nil (c : String) (k : Nat) : positionsFrom [] c k = [] := rfl

lemma positionsFrom_cons (h : String) (t : List String) (c : String) (k : Nat) :
    positionsFrom (h :: t) c k =
      if h == c then k :: positionsFrom t c (k + 1) else positionsFrom t c (k + 1) := rfl

lemma positionsFrom_shift (c : String) :
    ∀ (hs : List String) (k : Nat),
      positionsFrom hs c k = (positionsFrom hs c 0).map (· + k) := by
  intro hs
  induction hs with
  | nil => intro k; rfl
  | cons h t ih =>
    intro k
    by_cases hh : (h == c) = true
    · rw [positionsFrom_cons, positionsFrom_cons, if_pos hh, if_pos hh, List.map_cons,
        ih (k + 1), ih 1, List.map_map]
      congr 1
      · omega
      · congr 1
        funext x
        simp only [Function.comp_apply]
        omega
    · rw [positionsFrom_cons, positionsFrom_cons, if_neg hh, if_neg hh,
        ih (k + 1), ih 1, List.map_map]
      congr 1
      funext x
      simp only [Function.comp_apply]
      omega

lemma positionsOf_nil (c : String) : positionsOf [] c = [] := rfl

lemma positionsOf_cons (h : String) (t : List String) (c : String) :
    positionsOf (h :: t) c =
      if h == c then 0 :: (positionsOf t c).map (· + 1)
      else (positionsOf t c).map (· + 1) := by
  rw [positionsOf, positionsFrom_cons, positionsFrom_shift c t 1]
  rfl

lemma length_positionsOf (hs : List String) (c : String) :
    (positionsOf hs c).length = hs.count c := by
  induction hs with
  | nil => rfl
  | cons h t ih =>
    rw [positionsOf_cons, List.count_cons]
    by_cases hh : (h == c) = true
    · rw [if_pos hh, if_pos hh, List.length_cons, List.length_map, ih]
    · rw [if_neg hh, if_neg hh, List.length_map, ih]
      omega

lemma getD_positionsOf {hs : List String} {c : String} :
    ∀ i ∈ positionsOf hs c, hs.getD i "" = c := by
  induction hs with
  | nil => intro i hi; simp [positionsOf_nil] at hi
  | cons h t ih =>
    intro i hi
    rw [positionsOf_cons] at hi
    by_cases hh : (h == c) = true
    · rw [if_pos hh] at hi
      rcases List.mem_cons.mp hi with rfl | hi2
      · exact eq_of_beq hh
      · obtain ⟨j, hj, rfl⟩ := List.mem_map.mp hi2
        exact ih j hj
    · rw [if_neg hh] at hi
      obtain ⟨j, hj, rfl⟩ := List.mem_map.mp hi
      exact ih j hj

lemma map_getD_positionsOf (hs : List String) (c : String) :
    (positionsOf hs c).map (fun i => hs.getD i "") = List.replicate (hs.count c) c := by
  rw [List.eq_replicate_iff]
  refine ⟨by rw [List.length_map, length_positionsOf], ?_⟩
  intro b hb
  obtain ⟨i, hi, rfl⟩ := List.mem_map.mp hb
  exact getD_positionsOf i hi

lemma positionsOf_append (l1 l2 : List String) (c : String) :
    positionsOf (l1 ++ l2) c =
      positionsOf l1 c ++ (positionsOf l2 c).map (· + l1.length) := by
  induction l1 with
  | nil =>
    simp only [List.nil_append, positionsOf_nil, List.length_nil]
    rw [map_id_of (fun a _ => by omega)]
  | cons h t ih =>
    rw [List.cons_append, positionsOf_cons, positionsOf_cons, ih, List.map_append,
      List.map_map, List.length_cons]
    by_cases hh : (h == c) = true
    · rw [if_pos hh, if_pos hh, List.cons_append]
      congr 3
    · rw [if_neg hh, if_neg hh]
      congr 2

lemma positionsOf_replicate_self (k : Nat) (c : String) :
    positionsOf (List.replicate k c) c = List.range k := by
  induction k with
  | zero => rfl
  | succ n ih =>
    rw [List.replicate_succ, positionsOf_cons, if_pos (beq_self_eq_true c), ih,
      List.range_succ_eq_map]

lemma positionsOf_replicate_ne (k : Nat) {b c : String} (hne : (b == c) = false) :
    positionsOf (List.replicate k b) c = [] := by
  induction k with
  | zero => rfl
  | succ n ih => rw [List.replicate_succ, positionsOf_cons, if_neg (by simp [hne]), ih, List.map_nil]

lemma findIdx?_replicate_append {p : String → Bool} {b : String} (hb : p b = false) :
    ∀ (k i : Nat) (l : List String),
      List.findIdx? p (List.replicate k b ++ l) i = List.findIdx? p l (i + k) := by
  intro k
  induction k with
  | zero => intro i l; simp
  | succ n ih =>
    intro i l
    rw [List.replicate_succ, List.cons_append, List.findIdx?_cons, if_neg (by simp [hb]),
      ih (i + 1) l]
    congr 1
    omega

lemma range_append_four (k : Nat) :
    List.range k ++ [k, k + 1, k + 2, k + 3] = List.range (k + 4) := by
  rw [show k + 4 = (k + 3) + 1 from rfl, List.range_succ,
    show k + 3 = (k + 2) + 1 from rfl, List.range_succ,
    show k + 2 = (k + 1) + 1 from rfl, List.range_succ, List.range_succ]
  simp [List.append_assoc]

/-! ### Projection lemmas -/

lemma projected_headers (t : Table) :
    (projectedTable t).headers =
      required_cols.flatMap (fun c => List.replicate ((mappedHeaders t).count c) c) := by
  show (required_cols.flatMap (fun c => positionsOf (mappedHeaders t) c)).map
      (fun i => (mappedHeaders t).getD i "") = _
  rw [List.map_flatMap]
  congr 1
  funext c
  exact map_getD_positionsOf (mappedHeaders t) c

lemma numeric_mem_required : ∀ c ∈ numeric_cols, c ∈ required_cols := by decide

lemma count_projected (t : Table) (c : String) (hc : c ∈ required_cols) :
    ((projectedTable t).headers).count c = (mappedHeaders t).count c := by
  rw [projected_headers]
  fin_cases hc <;>
    simp [required_cols, List.flatMap_cons, List.flatMap_nil, List.count_append,
      List.count_replicate]

/-! ### Cell-level helper lemmas -/

lemma numOrNA_to_numeric (x : Cell) : numOrNA (to_numeric x) = true := by
  cases x <;> rfl

lemma to_numeric_eq_self {x : Cell} (h : numOrNA x = true) : to_numeric x = x := by
  cases x
  · rfl
  · exact absurd h (by simp [numOrNA])
  · rfl

/-! ### Coercion-loop lemmas -/

lemma coerceCol_ok {t t2 : Table} {c : String} (h : coerceCol t c = .ok t2) :
    ∃ i, positionsOf t.headers c = [i] ∧ t2.headers = t.headers ∧
      t2.rows = t.rows.map (fun r => r.set i (to_numeric (r.getD i .na))) := by
  unfold coerceCol at h
  split at h
  next i heq =>
    cases h
    exact ⟨i, heq, rfl, rfl⟩
  next => cases h

lemma coerceCol_error {t : Table} {c : String} {e : NormError}
    (h : coerceCol t c = .error e) : e = .coercionTypeError c := by
  unfold coerceCol at h
  split at h
  next => cases h
  next =>
    cases h
    rfl

lemma coerceCols_error :
    ∀ (cs : List String) {t : Table} {e : NormError},
      coerceCols t cs = .error e → ∃ c ∈ cs, e = .coercionTypeError c := by
  intro cs
  induction cs with
  | nil => intro t e h; cases h
  | cons c cs ih =>
    intro t e h
    rw [coerceCols] at h
    cases hc : coerceCol t c with
    | error e2 =>
      rw [hc] at h
      cases h
      exact ⟨c, List.mem_cons_self c cs, coerceCol_error hc⟩
    | ok tm =>
      rw [hc] at h
      obtain ⟨c2, hc2, he⟩ := ih h
      exact ⟨c2, List.mem_cons_of_mem c hc2, he⟩

lemma coerceCols_ok_inv :
    ∀ (cs : List String) {t t2 : Table}, coerceCols t cs = .ok t2 →
      t2.headers = t.headers ∧
      (∀ L, (∀ r ∈ t.rows, r.length = L) → ∀ r2 ∈ t2.rows, r2.length = L) ∧
      (∀ i, (∀ r ∈ t.rows, numOrNA (r.getD i .na) = true) →
        ∀ r2 ∈ t2.rows, numOrNA (r2.getD i .na) = true) ∧
      (∀ c ∈ cs, ∃ i, positionsOf t.headers c = [i] ∧
        ∀ r2 ∈ t2.rows, numOrNA (r2.getD i .na) = true) := by
  intro cs
  induction cs with
  | nil =>
    intro t t2 h
    rw [coerceCols] at h
    cases h
    exact ⟨rfl, fun L hL => hL, fun i hi => hi, by simp⟩
  | cons c cs ih =>
    intro t t2 h
    rw [coerceCols] at h
    cases hc : coerceCol t c with
    | error e =>
      rw [hc] at h
      cases h
    | ok tm =>
      rw [hc] at h
      obtain ⟨i, hpos, hhead, hrows⟩ := coerceCol_ok hc
      obtain ⟨ih1, ih2, ih3, ih4⟩ := ih h
      have hmid_len : ∀ L, (∀ r ∈ t.rows, r.length = L) → ∀ rm ∈ tm.rows, rm.length = L := by
        intro L hL rm hrm
        rw [hrows] at hrm
        obtain ⟨r, hr, rfl⟩ := List.mem_map.mp hrm
        rw [List.length_set]
        exact hL r hr
      have hmid_at_i : ∀ rm ∈ tm.rows, numOrNA (rm.getD i .na) = true := by
        intro rm hrm
        rw [hrows] at hrm
        obtain ⟨r, hr, rfl⟩ := List.mem_map.mp hrm
        rw [getD_set_self]
        split
        · exact numOrNA_to_numeric _
        · rfl
      have hmid_pres : ∀ j, (∀ r ∈ t.rows, numOrNA (r.getD j .na) = true) →
          ∀ rm ∈ tm.rows, numOrNA (rm.getD j .na) = true := by
        intro j hj rm hrm
        rw [hrows] at hrm
        obtain ⟨r, hr, rfl⟩ := List.mem_map.mp hrm
        by_cases hij : i = j
        · subst hij
          rw [getD_set_self]
          split
          · exact numOrNA_to_numeric _
          · rfl
        · rw [getD_set_ne _ hij]
          exact hj r hr
      refine ⟨ih1.trans hhead, fun L hL => ih2 L (hmid_len L hL),
        fun j hj => ih3 j (hmid_pres j hj), ?_⟩
      intro c2 hc2
      rcases List.mem_cons.mp hc2 with rfl | h2
      · exact ⟨i, hpos, ih3 i hmid_at_i⟩
      · obtain ⟨i2, hp2, hnum2⟩ := ih4 c2 h2
        rw [hhead] at hp2
        exact ⟨i2, hp2, hnum2⟩

lemma coerceCols_ok_of_unique :
    ∀ (cs : List String) (t : Table),
      (∀ c ∈ cs, ∃ i, positionsOf t.headers c = [i]) →
      ∃ t2, coerceCols t cs = .ok t2 := by
  intro cs
  induction cs with
  | nil => exact fun t _ => ⟨t, rfl⟩
  | cons c cs ih =>
    intro t h
    obtain ⟨i, hi⟩ := h c (List.mem_cons_self c cs)
    have hcc : coerceCol t c =
        .ok ⟨t.headers, t.rows.map (fun r => r.set i (to_numeric (r.getD i .na)))⟩ := by
      unfold coerceCol
      rw [hi]
    obtain ⟨t2, ht2⟩ :=
      ih ⟨t.headers, t.rows.map (fun r => r.set i (to_numeric (r.getD i .na)))⟩
        (fun c2 h2 => h c2 (List.mem_cons_of_mem c h2))
    exact ⟨t2, by rw [coerceCols, hcc]; exact ht2⟩

lemma coerceCols_fix :
    ∀ (cs : List String) (t : Table),
      (∀ c ∈ cs, ∃ i, positionsOf t.headers c = [i] ∧
        ∀ r ∈ t.rows, numOrNA (r.getD i .na) = true) →
      coerceCols t cs = .ok t := by
  intro cs
  induction cs with
  | nil => intro t _; rfl
  | cons c cs ih =>
    intro t h
    obtain ⟨i, hpos, hnum⟩ := h c (List.mem_cons_self c cs)
    have hcc : coerceCol t c = .ok t := by
      unfold coerceCol
      rw [hpos]
      show Except.ok
        (⟨t.headers, t.rows.map (fun r => r.set i (to_numeric (r.getD i .na)))⟩ : Table) =
          Except.ok t
      rw [map_id_of (fun r hr => by rw [to_numeric_eq_self (hnum r hr), set_getD_self])]
    rw [coerceCols, hcc]
    exact ih t (fun c2 h2 => h c2 (List.mem_cons_of_mem c h2))

/-- The haversine intermediate for arbitrary real angles, bounded:
`0 ≤ sin²((t2-t1)/2) + cos t1 · cos t2 · sin²(e/2) ≤ 1`. -/
lemma hav_a_aux (t1 t2 e : ℝ) :
    0 ≤ Real.sin ((t2 - t1) / 2) ^ 2 +
        Real.cos t1 * Real.cos t2 * Real.sin (e / 2) ^ 2 ∧
      Real.sin ((t2 - t1) / 2) ^ 2 +
        Real.cos t1 * Real.cos t2 * Real.sin (e / 2) ^ 2 ≤ 1 := by
  have hd : Real.sin ((t2 - t1) / 2) ^ 2 = (1 - Real.cos (t2 - t1)) / 2 := by
    rw [Real.sin_sq_eq_half_sub]
    rw [show 2 * ((t2 - t1) / 2) = t2 - t1 by ring]
    ring
  have he0 : (0 : ℝ) ≤ Real.sin (e / 2) ^ 2 := sq_nonneg _
  have he1 : Real.sin (e / 2) ^ 2 ≤ 1 := Real.sin_sq_le_one _
  have hsub : Real.cos (t2 - t1) =
      Real.cos t2 * Real.cos t1 + Real.sin t2 * Real.sin t1 := Real.cos_sub t2 t1
  have hadd : Real.cos (t2 + t1) =
      Real.cos t2 * Real.cos t1 - Real.sin t2 * Real.sin t1 := Real.cos_add t2 t1
  have hc1 : -1 ≤ Real.cos (t2 - t1) := Real.neg_one_le_cos _
  have hc2 : Real.cos (t2 - t1) ≤ 1 := Real.cos_le_one _
  have hc3 : -1 ≤ Real.cos (t2 + t1) := Real.neg_one_le_cos _
  have hc4 : Real.cos (t2 + t1) ≤ 1 := Real.cos_le_one _
  constructor <;>
    nlinarith [mul_nonneg (by linarith : (0:ℝ) ≤ 1 - Real.sin (e / 2) ^ 2)
        (by linarith : (0:ℝ) ≤ 1 - Real.cos (t2 - t1)),
      mul_nonneg he0 (by linarith : (0:ℝ) ≤ 1 + Real.cos (t2 + t1)),
      mul_nonneg (by linarith : (0:ℝ) ≤ 1 - Real.sin (e / 2) ^ 2)
        (by linarith : (0:ℝ) ≤ 1 + Real.cos (t2 - t1)),
      mul_nonneg he0 (by linarith : (0:ℝ) ≤ 1 - Real.cos (t2 + t1))]

/-- Value of the code's distance at delivery `(0,0)`, dropoff `(0,1)`:
exactly `6371·π/180`. -/
lemma haversine_equator_one_degree :
    haversine_distance_km 0 0 0 1 = 6371 * Real.pi / 180 := by
  have hpi := Real.pi_pos
  have ha : haversine_a 0 0 0 1 = Real.sin (Real.pi / 360) ^ 2 := by
    unfold haversine_a radians
    rw [show ((1 : ℝ) * Real.pi / 180 - 0 * Real.pi / 180) / 2 = Real.pi / 360 by ring,
      show ((0 : ℝ) * Real.pi / 180 - 0 * Real.pi / 180) / 2 = 0 by ring]
    rw [show (0 : ℝ) * Real.pi / 180 = 0 by ring]
    simp
  have hs : Real.sqrt (Real.sin (Real.pi / 360) ^ 2) = Real.sin (Real.pi / 360) := by
    rw [Real.sqrt_sq]
    exact Real.sin_nonneg_of_nonneg_of_le_pi (by linarith) (by linarith)
  unfold haversine_distance_km
  rw [ha, hs, Real.arcsin_sin (by linarith) (by linarith)]
  ring

/-- C7: identical delivery and dropoff coordinates always give a
computed `distance_km` equal to exactly 0 (hence within `1e-9`). -/
theorem C7_identical_points_zero (lat lon : ℝ) :
    haversine_distance_km lat lon lat lon = 0 ∧
      |haversine_distance_km lat lon lat lon| ≤ 1e-9 := by
  have ha : haversine_a lat lon lat lon = 0 := by
    unfold haversine_a
    simp
  have h : haversine_distance_km lat lon lat lon = 0 := by
    unfold haversine_distance_km
    rw [ha]
    simp
  refine ⟨h, ?_⟩
  rw [h]
  norm_num

/-- C10: the distance function is symmetric in its two points. -/
theorem C10_haversine_symmetric (lat1 lon1 lat2 lon2 : ℝ) :
    haversine_distance_km lat1 lon1 lat2 lon2 =
      haversine_distance_km lat2 lon2 lat1 lon1 := by
  have hsin : ∀ x y : ℝ, Real.sin ((x - y) / 2) ^ 2 = Real.sin ((y - x) / 2) ^ 2 := by
    intro x y
    rw [show (x - y) / 2 = -((y - x) / 2) by ring, Real.sin_neg]
    ring
  have ha : haversine_a lat1 lon1 lat2 lon2 = haversine_a lat2 lon2 lat1 lon1 := by
    unfold haversine_a
    rw [hsin (radians lat2) (radians lat1), hsin (radians lon2) (radians lon1),
      mul_comm (Real.cos (radians lat1)) (Real.cos (radians lat2))]
  unfold haversine_distance_km
  rw [ha]

/-- C2: in exact real arithmetic the intermediate `a` of the code's
haversine always lies in `[0,1]`, so `sqrt` and `asin` stay inside
their domains.  The source (src/app.py line 30) applies
`math.asin(math.sqrt(a))` with no clamping: it relies on this exact
bound, which double-precision rounding does not preserve. -/
theorem C2_haversine_a_in_unit_interval (lat1 lon1 lat2 lon2 : ℝ) :
    0 ≤ haversine_a lat1 lon1 lat2 lon2 ∧ haversine_a lat1 lon1 lat2 lon2 ≤ 1 := by
  unfold haversine_a
  exact hav_a_aux (radians lat1) (radians lat2) (radians lon2 - radians lon1)

lemma positionsOf_shape (k : Nat) (c : String) (hc : ("shipment_code" == c) = false) :
    positionsOf (List.replicate k "shipment_code" ++
        ["delivery_latitude", "delivery_longitude",
         "dropoff_latitude", "dropoff_longitude"]) c =
      (positionsOf ["delivery_latitude", "delivery_longitude",
         "dropoff_latitude", "dropoff_longitude"] c).map (· + k) := by
  rw [positionsOf_append, positionsOf_replicate_ne _ hc, List.nil_append,
    List.length_replicate]

/-- Inversion of a successful normalization: the output has one block
of `shipment_code` columns (one per shipment alias in the input)
followed by the four coordinate columns exactly once each, full-length
rows, and numeric-or-missing coordinate cells. -/
lemma normalize_ok_shape {t t2 : Table} (h : normalize_columns t = .ok t2) :
    ∃ k, 1 ≤ k ∧
      t2.headers = List.replicate k "shipment_code" ++
        ["delivery_latitude", "delivery_longitude",
         "dropoff_latitude", "dropoff_longitude"] ∧
      (∀ r ∈ t2.rows, r.length = k + 4) ∧
      (∀ j, j < 4 → ∀ r ∈ t2.rows, numOrNA (r.getD (k + j) .na) = true) := by
  unfold normalize_columns at h
  split at h
  next hempty =>
    obtain ⟨hhead, hlen, _, hcols⟩ := coerceCols_ok_inv numeric_cols h
    have hcount : ∀ c ∈ numeric_cols, (mappedHeaders t).count c = 1 := by
      intro c hc
      obtain ⟨i, hp, _⟩ := hcols c hc
      rw [← count_projected t c (numeric_mem_required c hc), ← length_positionsOf, hp]
      rfl
    have hk1 : 1 ≤ (mappedHeaders t).count "shipment_code" := by
      have hsc : "shipment_code" ∈ mappedHeaders t := by
        have hnil := List.isEmpty_iff.mp hempty
        rw [missingOf, List.filter_eq_nil_iff] at hnil
        have h2 := hnil "shipment_code" (by decide)
        simpa using h2
      exact List.count_pos_iff.mpr hsc
    have hshape : (projectedTable t).headers =
        List.replicate ((mappedHeaders t).count "shipment_code") "shipment_code" ++
          ["delivery_latitude", "delivery_longitude",
           "dropoff_latitude", "dropoff_longitude"] := by
      rw [projected_headers]
      simp only [required_cols, List.flatMap_cons, List.flatMap_nil, List.append_nil]
      rw [hcount "delivery_latitude" (by decide), hcount "delivery_longitude" (by decide),
        hcount "dropoff_latitude" (by decide), hcount "dropoff_longitude" (by decide)]
      rfl
    have hLproj : ∀ r ∈ (projectedTable t).rows,
        r.length = (mappedHeaders t).count "shipment_code" + 4 := by
      intro r hr
      have hrows : (projectedTable t).rows = t.rows.map (fun row =>
          (required_cols.flatMap (fun c => positionsOf (mappedHeaders t) c)).map
            (fun i => row.getD i .na)) := rfl
      rw [hrows] at hr
      obtain ⟨row, _, rfl⟩ := List.mem_map.mp hr
      rw [List.length_map]
      have h1 : (required_cols.flatMap (fun c => positionsOf (mappedHeaders t) c)).length =
          (projectedTable t).headers.length := by
        show _ = ((required_cols.flatMap (fun c => positionsOf (mappedHeaders t) c)).map
          (fun i => (mappedHeaders t).getD i "")).length
        rw [List.length_map]
      rw [h1, hshape]
      simp
    have hnum_at : ∀ (c : String), c ∈ numeric_cols →
        ∀ p, positionsOf ["delivery_latitude", "delivery_longitude",
          "dropoff_latitude", "dropoff_longitude"] c = [p] →
        ∀ r ∈ t2.rows,
          numOrNA (r.getD (p + (mappedHeaders t).count "shipment_code") .na) = true := by
      intro c hc p hpc r hr
      obtain ⟨i, hp, hn⟩ := hcols c hc
      rw [hshape, positionsOf_shape _ _ (by fin_cases hc <;> decide), hpc] at hp
      simp only [List.map_cons, List.map_nil, List.cons.injEq, and_true] at hp
      have hni := hn r hr
      rw [← hp] at hni
      exact hni
    refine ⟨(mappedHeaders t).count "shipment_code", hk1, hhead.trans hshape,
      hlen _ hLproj, ?_⟩
    intro j hj r hr
    interval_cases j
    · have := hnum_at "delivery_latitude" (by decide) 0 (by decide) r hr
      simpa using this
    · have := hnum_at "delivery_longitude" (by decide) 1 (by decide) r hr
      rw [Nat.add_comm] at this
      exact this
    · have := hnum_at "dropoff_latitude" (by decide) 2 (by decide) r hr
      rw [Nat.add_comm] at this
      exact this
    · have := hnum_at "dropoff_longitude" (by decide) 3 (by decide) r hr
      rw [Nat.add_comm] at this
      exact this
  next => cases h

/-- Any table of the canonical shape is a fixed point of
`normalize_columns`. -/
lemma normalize_fix {u : Table} {k : Nat} (hk : 1 ≤ k)
    (hhead : u.headers = List.replicate k "shipment_code" ++
      ["delivery_latitude", "delivery_longitude",
       "dropoff_latitude", "dropoff_longitude"])
    (hlen : ∀ r ∈ u.rows, r.length = k + 4)
    (hnum : ∀ j, j < 4 → ∀ r ∈ u.rows, numOrNA (r.getD (k + j) .na) = true) :
    normalize_columns u = .ok u := by
  have hmap : mappedHeaders u = u.headers := by
    rw [mappedHeaders, hhead, List.map_append, List.map_replicate,
      (by decide : mapHeader (canonHeader "shipment_code") = "shipment_code"),
      (by decide : ["delivery_latitude", "delivery_longitude", "dropoff_latitude",
        "dropoff_longitude"].map (fun c => mapHeader (canonHeader c)) =
        ["delivery_latitude", "delivery_longitude", "dropoff_latitude",
         "dropoff_longitude"])]
  have hcont : ∀ c ∈ required_cols, (mappedHeaders u).contains c = true := by
    intro c hc
    rw [hmap, hhead]
    fin_cases hc
    · simp [List.mem_replicate]
      omega
    · simp
    · simp
    · simp
    · simp
  have hmiss : missingOf u = [] := by
    rw [missingOf, List.filter_eq_nil_iff]
    intro c hc
    rw [hcont c hc]
    simp
  have hpos_sc : positionsOf (mappedHeaders u) "shipment_code" = List.range k := by
    rw [hmap, hhead, positionsOf_append, positionsOf_replicate_self,
      (by decide : positionsOf ["delivery_latitude", "delivery_longitude",
        "dropoff_latitude", "dropoff_longitude"] "shipment_code" = [])]
    simp
  have hpos1 : positionsOf (mappedHeaders u) "delivery_latitude" = [k] := by
    rw [hmap, hhead, positionsOf_shape _ _ (by decide),
      (by decide : positionsOf ["delivery_latitude", "delivery_longitude",
        "dropoff_latitude", "dropoff_longitude"] "delivery_latitude" = [0])]
    simp
  have hpos2 : positionsOf (mappedHeaders u) "delivery_longitude" = [k + 1] := by
    rw [hmap, hhead, positionsOf_shape _ _ (by decide),
      (by decide : positionsOf ["delivery_latitude", "delivery_longitude",
        "dropoff_latitude", "dropoff_longitude"] "delivery_longitude" = [1])]
    simp [Nat.add_comm]
  have hpos3 : positionsOf (mappedHeaders u) "dropoff_latitude" = [k + 2] := by
    rw [hmap, hhead, positionsOf_shape _ _ (by decide),
      (by decide : positionsOf ["delivery_latitude", "delivery_longitude",
        "dropoff_latitude", "dropoff_longitude"] "dropoff_latitude" = [2])]
    simp [Nat.add_comm]
  have hpos4 : positionsOf (mappedHeaders u) "dropoff_longitude" = [k + 3] := by
    rw [hmap, hhead, positionsOf_shape _ _ (by decide),
      (by decide : positionsOf ["delivery_latitude", "delivery_longitude",
        "dropoff_latitude", "dropoff_longitude"] "dropoff_longitude" = [3])]
    simp [Nat.add_comm]
  have hidxs : required_cols.flatMap (fun c => positionsOf (mappedHeaders u) c) =
      List.range (k + 4) := by
    simp only [required_cols, List.flatMap_cons, List.flatMap_nil]
    rw [hpos_sc, hpos1, hpos2, hpos3, hpos4]
    exact range_append_four k
  have hlen_hs : (mappedHeaders u).length = k + 4 := by
    rw [hmap, hhead]
    simp
  have hh : (projectedTable u).headers = u.headers := by
    show (required_cols.flatMap (fun c => positionsOf (mappedHeaders u) c)).map
      (fun i => (mappedHeaders u).getD i "") = u.headers
    rw [hidxs, ← hlen_hs, map_getD_range, hmap]
  have hr : (projectedTable u).rows = u.rows := by
    show u.rows.map (fun r =>
      (required_cols.flatMap (fun c => positionsOf (mappedHeaders u) c)).map
        (fun i => r.getD i .na)) = u.rows
    apply map_id_of
    intro r hrr
    rw [hidxs, ← hlen r hrr, map_getD_range]
  have hproj : projectedTable u = u := by
    have heta : projectedTable u =
        Table.mk (projectedTable u).headers (projectedTable u).rows := rfl
    rw [heta, hh, hr]
  have hcoerce : coerceCols u numeric_cols = .ok u := by
    apply coerceCols_fix
    intro c hc
    fin_cases hc
    · refine ⟨k, by rw [← hmap]; exact hpos1, fun r hrr => ?_⟩
      have := hnum 0 (by omega) r hrr
      simpa using this
    · exact ⟨k + 1, by rw [← hmap]; exact hpos2, fun r hrr => hnum 1 (by omega) r hrr⟩
    · exact ⟨k + 2, by rw [← hmap]; exact hpos3, fun r hrr => hnum 2 (by omega) r hrr⟩
    · exact ⟨k + 3, by rw [← hmap]; exact hpos4, fun r hrr => hnum 3 (by omega) r hrr⟩
  unfold normalize_columns
  rw [hmiss]
  have hemp : (([] : List String).isEmpty = true) := rfl
  rw [if_pos hemp, hproj]
  exact hcoerce

/-- Inversion for `scoreRow`: a scored row records its source row's
cells and carries the haversine distance of its four coordinates. -/
lemma scoreRow_some {i1 i2 i3 i4 : Nat} {r : List Cell} {sr : ScoredRow}
    (h : scoreRow i1 i2 i3 i4 r = some sr) :
    ∃ q1 q2 q3 q4 : ℚ,
      cellNum (r.getD i1 .na) = some q1 ∧ cellNum (r.getD i2 .na) = some q2 ∧
      cellNum (r.getD i3 .na) = some q3 ∧ cellNum (r.getD i4 .na) = some q4 ∧
      sr.cells = r ∧
      sr.distance_km = haversine_distance_km (q1 : ℝ) (q2 : ℝ) (q3 : ℝ) (q4 : ℝ) ∧
      sr.distance_meters =
        haversine_distance_km (q1 : ℝ) (q2 : ℝ) (q3 : ℝ) (q4 : ℝ) * 1000 := by
  unfold scoreRow at h
  split at h
  next q1 q2 q3 q4 hq1 hq2 hq3 hq4 =>
    cases h
    exact ⟨q1, q2, q3, q4, hq1, hq2, hq3, hq4, rfl, rfl, rfl⟩
  next => cases h

/-- Inversion for `scoreRows`: every scored row comes from a surviving
input row. -/
lemma scoreRows_mem {i1 i2 i3 i4 : Nat} :
    ∀ {rs : List (List Cell)} {l : List ScoredRow},
      scoreRows i1 i2 i3 i4 rs = some l →
        ∀ sr ∈ l, ∃ r ∈ rs, scoreRow i1 i2 i3 i4 r = some sr := by
  intro rs
  induction rs with
  | nil =>
    intro l h sr hm
    rw [scoreRows] at h
    cases h
    simp at hm
  | cons r rs ih =>
    intro l h sr hm
    rw [scoreRows] at h
    cases hr : scoreRow i1 i2 i3 i4 r with
    | none => rw [hr] at h; simp at h
    | some s =>
      cases hrs : scoreRows i1 i2 i3 i4 rs with
      | none => rw [hr, hrs] at h; simp at h
      | some l2 =>
        rw [hr, hrs] at h
        cases h
        rcases List.mem_cons.mp hm with h1 | h2
        · exact ⟨r, List.mem_cons_self r rs, h1 ▸ hr⟩
        · obtain ⟨r2, hr2, hs2⟩ := ih hrs sr h2
          exact ⟨r2, List.mem_cons_of_mem r hr2, hs2⟩

/-- C8: every row of the distance stage's output has
`distance_meters = distance_km * 1000` exactly. -/
theorem C8_meters_eq_km_times_1000 (t : Table) (l : List ScoredRow) (sr : ScoredRow)
    (h : compute_distances t = some l) (hm : sr ∈ l) :
    sr.distance_meters = sr.distance_km * 1000 := by
  unfold compute_distances at h
  split at h
  · obtain ⟨r, _, hsr⟩ := scoreRows_mem h sr hm
    obtain ⟨q1, q2, q3, q4, _, _, _, _, _, hkm, hme⟩ := scoreRow_some hsr
    rw [hme, hkm]
  · simp at h

/-- C8 witness: the scored row of the concrete normalized table. -/
theorem C8_meters_eq_km_times_1000_witness :
    scoredRowEquator.distance_meters = scoredRowEquator.distance_km * 1000 :=
  C8_meters_eq_km_times_1000 tableWithBadCellNorm [scoredRowEquator] scoredRowEquator
    rfl (by simp)

/-- C1: the code's per-row distance is exactly the reference haversine
formula of the specification — (i) `haversine_distance_km` coincides
with the formula transcribed from the spec, (ii) every row retained by
the distance stage carries the haversine distance of its own four
coordinate cells, and (iii) for delivery `(0,0)`, dropoff `(0,1)` the
result is within 0.5 km of 111.19 km. -/
theorem C1_distance_matches_reference :
    (∀ lat1 lon1 lat2 lon2 : ℝ,
        haversine_distance_km lat1 lon1 lat2 lon2 = haversineSpec lat1 lon1 lat2 lon2) ∧
    (∀ (t : Table) (l : List ScoredRow), compute_distances t = some l →
      ∀ sr ∈ l, ∃ q1 q2 q3 q4 : ℚ,
        cellNum (coordCell t "delivery_latitude" sr.cells) = some q1 ∧
        cellNum (coordCell t "delivery_longitude" sr.cells) = some q2 ∧
        cellNum (coordCell t "dropoff_latitude" sr.cells) = some q3 ∧
        cellNum (coordCell t "dropoff_longitude" sr.cells) = some q4 ∧
        sr.distance_km = haversine_distance_km (q1 : ℝ) (q2 : ℝ) (q3 : ℝ) (q4 : ℝ)) ∧
    |haversine_distance_km 0 0 0 1 - 111.19| ≤ 0.5 := by
  refine ⟨fun lat1 lon1 lat2 lon2 => rfl, ?_, ?_⟩
  · intro t l h sr hm
    unfold compute_distances at h
    split at h
    next i1 i2 i3 i4 hi1 hi2 hi3 hi4 =>
      obtain ⟨r, _, hsr⟩ := scoreRows_mem h sr hm
      obtain ⟨q1, q2, q3, q4, hq1, hq2, hq3, hq4, hc, hkm, _⟩ := scoreRow_some hsr
      have hcc1 : coordCell t "delivery_latitude" sr.cells = sr.cells.getD i1 .na := by
        unfold coordCell; rw [hi1]
      have hcc2 : coordCell t "delivery_longitude" sr.cells = sr.cells.getD i2 .na := by
        unfold coordCell; rw [hi2]
      have hcc3 : coordCell t "dropoff_latitude" sr.cells = sr.cells.getD i3 .na := by
        unfold coordCell; rw [hi3]
      have hcc4 : coordCell t "dropoff_longitude" sr.cells = sr.cells.getD i4 .na := by
        unfold coordCell; rw [hi4]
      refine ⟨q1, q2, q3, q4, ?_, ?_, ?_, ?_, hkm⟩
      · rw [hcc1, hc]; exact hq1
      · rw [hcc2, hc]; exact hq2
      · rw [hcc3, hc]; exact hq3
      · rw [hcc4, hc]; exact hq4
    next => simp at h
  · rw [haversine_equator_one_degree]
    rw [abs_le]
    constructor <;> nlinarith [Real.pi_gt_d6, Real.pi_lt_d6]

/-- C1 witness: the second row of the concrete normalized table is
scored with the haversine of its own coordinates `(0,0)`, `(0,1)`. -/
theorem C1_distance_matches_reference_witness :
    ∃ q1 q2 q3 q4 : ℚ,
      cellNum (coordCell tableWithBadCellNorm "delivery_latitude" scoredRowEquator.cells) = some q1 ∧
      cellNum (coordCell tableWithBadCellNorm "delivery_longitude" scoredRowEquator.cells) = some q2 ∧
      cellNum (coordCell tableWithBadCellNorm "dropoff_latitude" scoredRowEquator.cells) = some q3 ∧
      cellNum (coordCell tableWithBadCellNorm "dropoff_longitude" scoredRowEquator.cells) = some q4 ∧
      scoredRowEquator.distance_km =
        haversine_distance_km (q1 : ℝ) (q2 : ℝ) (q3 : ℝ) (q4 : ℝ) :=
  C1_distance_matches_reference.2.1 tableWithBadCellNorm [scoredRowEquator] rfl
    scoredRowEquator (by simp)

lemma cell_num_of {x : Cell} (h1 : numOrNA x = true) (h2 : isNA x = false) :
    ∃ q, cellNum x = some q := by
  cases x
  · exact ⟨_, rfl⟩
  · exact absurd h1 (by simp [numOrNA])
  · exact absurd h2 (by simp [isNA])

lemma scoreRows_all_some {i1 i2 i3 i4 : Nat} :
    ∀ (rs : List (List Cell)),
      (∀ r ∈ rs, ∃ sr, scoreRow i1 i2 i3 i4 r = some sr ∧ sr.cells = r) →
      ∃ l, scoreRows i1 i2 i3 i4 rs = some l ∧ l.map (fun sr => sr.cells) = rs := by
  intro rs
  induction rs with
  | nil => exact fun _ => ⟨[], rfl, rfl⟩
  | cons r rs ih =>
    intro h
    obtain ⟨sr, hsr, hcells⟩ := h r (List.mem_cons_self r rs)
    obtain ⟨l, hl, hmap⟩ := ih (fun r2 h2 => h r2 (List.mem_cons_of_mem r h2))
    refine ⟨sr :: l, ?_, ?_⟩
    · rw [scoreRows, hsr, hl]
    · rw [List.map_cons, hcells, hmap]

/-- C9: normalization fixes already-canonical tables, and is
idempotent: the output of any successful normalization is itself a
fixed point of normalization. -/
theorem C9_normalize_idempotent :
    (∀ t : Table, isCanonical t → normalize_columns t = .ok t) ∧
    (∀ t t2 : Table, normalize_columns t = .ok t2 → normalize_columns t2 = .ok t2) := by
  constructor
  · rintro t ⟨hhead, hrows⟩
    apply normalize_fix (k := 1) le_rfl
    · rw [hhead]
      rfl
    · intro r hr
      exact (hrows r hr).1
    · intro j hj r hr
      exact (hrows r hr).2 (1 + j) (by omega) (by omega)
  · intro t t2 h
    obtain ⟨k, hk, hhead, hlen, hnum⟩ := normalize_ok_shape h
    exact normalize_fix hk hhead hlen hnum

/-- C9 witness: a concrete canonical numeric table is fixed by
normalization. -/
theorem C9_normalize_idempotent_witness :
    normalize_columns tableCanonical = .ok tableCanonical := by
  apply C9_normalize_idempotent.1
  refine ⟨rfl, ?_⟩
  intro r hr
  fin_cases hr
  · exact ⟨rfl, by intro i h1 h4; interval_cases i <;> rfl⟩
  · exact ⟨rfl, by intro i h1 h4; interval_cases i <;> rfl⟩

/-- C4: normalization raises the missing-columns error exactly when
some canonical column is absent after mapping, and the error carries
the full required list together with exactly the missing subset; a
table missing `dropoff_longitude` and all its aliases reports
`dropoff_longitude`. -/
theorem C4_missing_columns_error :
    (∀ (t : Table) (req miss : List String),
      normalize_columns t = .error (.missingColumns req miss) ↔
        (req = required_cols ∧ miss = missingOf t ∧ missingOf t ≠ [])) ∧
    normalize_columns tableNoDropLon =
      .error (.missingColumns required_cols ["dropoff_longitude"]) := by
  constructor
  · intro t req miss
    unfold normalize_columns
    by_cases hm : (missingOf t).isEmpty = true
    · rw [if_pos hm]
      constructor
      · intro h
        obtain ⟨c, -, he⟩ := coerceCols_error numeric_cols h
        cases he
      · rintro ⟨-, -, hne⟩
        exact absurd (List.isEmpty_iff.mp hm) hne
    · rw [if_neg hm]
      constructor
      · intro h
        injection h with h2
        injection h2 with ha hb
        exact ⟨ha.symm, hb.symm, fun hc => hm (by rw [hc]; rfl)⟩
      · rintro ⟨rfl, rfl, -⟩
        rfl
  · decide

/-- C4 witness: a table carrying only a shipment column reports all
four coordinate columns as missing, alongside the full required
list. -/
theorem C4_missing_columns_error_witness :
    normalize_columns tableOnlyShipment =
      .error (.missingColumns required_cols
        ["delivery_latitude", "delivery_longitude",
         "dropoff_latitude", "dropoff_longitude"]) :=
  (C4_missing_columns_error.1 tableOnlyShipment _ _).mpr ⟨rfl, by decide, by decide⟩

/-- C3 counterexample: with both `delivery_lat` and `delivery_latitude`
present, normalization does NOT succeed — `df.rename` duplicates the
canonical label and `pd.to_numeric(df[c])` receives a two-column frame
and raises a `TypeError`. -/
theorem C3_duplicate_alias_counterexample :
    normalize_columns tableDupAlias = .error (.coercionTypeError "delivery_latitude") := by
  decide

/-- C3 (amended): if two distinct aliases map to the same canonical
coordinate column, normalization fails — never `ok` — and when the
required-column check passes it raises the coercion `TypeError`. -/
theorem C3_duplicate_alias_amended :
    ∀ (t : Table) (c : String), c ∈ numeric_cols →
      2 ≤ (mappedHeaders t).count c →
      (∀ t2, normalize_columns t ≠ .ok t2) ∧
      ((missingOf t).isEmpty = true →
        ∃ c2 ∈ numeric_cols, normalize_columns t = .error (.coercionTypeError c2)) := by
  intro t c hc hcount
  have hnotok : ∀ t2, normalize_columns t ≠ .ok t2 := by
    intro t2 hok
    unfold normalize_columns at hok
    split at hok
    next =>
      obtain ⟨-, -, -, hcols⟩ := coerceCols_ok_inv numeric_cols hok
      obtain ⟨i, hp, -⟩ := hcols c hc
      have h1 : ((projectedTable t).headers).count c = 1 := by
        rw [← length_positionsOf, hp]
        rfl
      rw [count_projected t c (numeric_mem_required c hc)] at h1
      omega
    next => cases hok
  refine ⟨hnotok, ?_⟩
  intro hemp
  have hnorm : normalize_columns t = coerceCols (projectedTable t) numeric_cols := by
    unfold normalize_columns
    rw [if_pos hemp]
  cases hres : coerceCols (projectedTable t) numeric_cols with
  | ok t2 => exact absurd (hnorm.trans hres) (hnotok t2)
  | error e =>
    obtain ⟨c2, hc2, rfl⟩ := coerceCols_error numeric_cols hres
    exact ⟨c2, hc2, hnorm.trans hres⟩

/-- C3 witness: the duplicate-alias table falls in the coercion
`TypeError` case of the amended claim. -/
theorem C3_duplicate_alias_amended_witness :
    ∃ c2 ∈ numeric_cols,
      normalize_columns tableDupAlias = .error (.coercionTypeError c2) :=
  (C3_duplicate_alias_amended tableDupAlias "delivery_latitude"
    (by decide) (by decide)).2 (by decide)

/-- C5: after a successful normalization, (i) replacing the rows by
any other rows cannot make normalization fail — a malformed cell never
aborts it; (ii) every coordinate cell of the output is missing or
numeric (parse failures became the missing marker); and (iii) the
distance stage succeeds, keeping exactly the rows with all four
coordinates present. -/
theorem C5_bad_cells_policy :
    ∀ t t2 : Table, normalize_columns t = .ok t2 →
      (∀ rows2 : List (List Cell), ∃ t3,
        normalize_columns ⟨t.headers, rows2⟩ = .ok t3) ∧
      (∀ r ∈ t2.rows, ∀ c ∈ numeric_cols,
        isNA (coordCell t2 c r) = true ∨ ∃ q, coordCell t2 c r = .num q) ∧
      (∃ l, compute_distances t2 = some l ∧
        l.map (fun sr => sr.cells) = t2.rows.filter (fun r => rowComplete t2 r)) := by
  intro t t2 h
  obtain ⟨k, hk, hhead, hlen, hnum⟩ := normalize_ok_shape h
  have hnum0 : ∀ r ∈ t2.rows, numOrNA (r.getD k .na) = true := by
    intro r hr
    have h0 := hnum 0 (by omega) r hr
    rw [Nat.add_zero] at h0
    exact h0
  have hf1 : t2.headers.findIdx? (· == "delivery_latitude") = some k := by
    rw [hhead, findIdx?_replicate_append (by decide) k 0, List.findIdx?_cons,
      if_pos (by decide)]
    simp
  have hf2 : t2.headers.findIdx? (· == "delivery_longitude") = some (k + 1) := by
    rw [hhead, findIdx?_replicate_append (by decide) k 0, List.findIdx?_cons,
      if_neg (by decide), List.findIdx?_cons, if_pos (by decide)]
    simp [Nat.add_comm]
  have hf3 : t2.headers.findIdx? (· == "dropoff_latitude") = some (k + 2) := by
    rw [hhead, findIdx?_replicate_append (by decide) k 0, List.findIdx?_cons,
      if_neg (by decide), List.findIdx?_cons, if_neg (by decide), List.findIdx?_cons,
      if_pos (by decide)]
    simp [Nat.add_comm]
    omega
  have hf4 : t2.headers.findIdx? (· == "dropoff_longitude") = some (k + 3) := by
    rw [hhead, findIdx?_replicate_append (by decide) k 0, List.findIdx?_cons,
      if_neg (by decide), List.findIdx?_cons, if_neg (by decide), List.findIdx?_cons,
      if_neg (by decide), List.findIdx?_cons, if_pos (by decide)]
    simp [Nat.add_comm]
    omega
  have hcc1 : ∀ r : List Cell, coordCell t2 "delivery_latitude" r = r.getD k .na := by
    intro r
    unfold coordCell
    rw [hf1]
  have hcc2 : ∀ r : List Cell, coordCell t2 "delivery_longitude" r = r.getD (k + 1) .na := by
    intro r
    unfold coordCell
    rw [hf2]
  have hcc3 : ∀ r : List Cell, coordCell t2 "dropoff_latitude" r = r.getD (k + 2) .na := by
    intro r
    unfold coordCell
    rw [hf3]
  have hcc4 : ∀ r : List Cell, coordCell t2 "dropoff_longitude" r = r.getD (k + 3) .na := by
    intro r
    unfold coordCell
    rw [hf4]
  unfold normalize_columns at h
  split at h
  next hemp =>
    refine ⟨?_, ?_, ?_⟩
    · intro rows2
      obtain ⟨-, -, -, hcols⟩ := coerceCols_ok_inv numeric_cols h
      have huniq : ∀ c ∈ numeric_cols, ∃ i,
          positionsOf ((projectedTable (⟨t.headers, rows2⟩ : Table)).headers) c = [i] := by
        intro c hc
        obtain ⟨i, hp, -⟩ := hcols c hc
        exact ⟨i, hp⟩
      obtain ⟨t3, ht3⟩ :=
        coerceCols_ok_of_unique numeric_cols (projectedTable ⟨t.headers, rows2⟩) huniq
      refine ⟨t3, ?_⟩
      unfold normalize_columns
      rw [show missingOf (⟨t.headers, rows2⟩ : Table) = missingOf t from rfl, if_pos hemp]
      exact ht3
    · intro r hr c hc
      fin_cases hc
      · rw [hcc1]
        have h0 := hnum0 r hr
        cases hx : r.getD k .na
        · exact Or.inr ⟨_, rfl⟩
        · rw [hx] at h0
          exact absurd h0 (by simp [numOrNA])
        · exact Or.inl rfl
      · rw [hcc2]
        have h1 := hnum 1 (by omega) r hr
        cases hx : r.getD (k + 1) .na
        · exact Or.inr ⟨_, rfl⟩
        · rw [hx] at h1
          exact absurd h1 (by simp [numOrNA])
        · exact Or.inl rfl
      · rw [hcc3]
        have h2 := hnum 2 (by omega) r hr
        cases hx : r.getD (k + 2) .na
        · exact Or.inr ⟨_, rfl⟩
        · rw [hx] at h2
          exact absurd h2 (by simp [numOrNA])
        · exact Or.inl rfl
      · rw [hcc4]
        have h3 := hnum 3 (by omega) r hr
        cases hx : r.getD (k + 3) .na
        · exact Or.inr ⟨_, rfl⟩
        · rw [hx] at h3
          exact absurd h3 (by simp [numOrNA])
        · exact Or.inl rfl
    · have hcd : compute_distances t2 =
          scoreRows k (k + 1) (k + 2) (k + 3)
            (t2.rows.filter (fun r =>
              !(isNA (r.getD k .na)) && !(isNA (r.getD (k + 1) .na)) &&
              !(isNA (r.getD (k + 2) .na)) && !(isNA (r.getD (k + 3) .na)))) := by
        unfold compute_distances
        rw [hf1, hf2, hf3, hf4]
      have hfilter : (fun r => rowComplete t2 r) = (fun r : List Cell =>
          !(isNA (r.getD k .na)) && !(isNA (r.getD (k + 1) .na)) &&
          !(isNA (r.getD (k + 2) .na)) && !(isNA (r.getD (k + 3) .na))) := by
        funext r
        rw [rowComplete]
        simp only [numeric_cols, List.all_cons, List.all_nil, hcc1 r, hcc2 r, hcc3 r,
          hcc4 r, Bool.and_true, Bool.and_assoc]
      have hall : ∀ r ∈ t2.rows.filter (fun r =>
          !(isNA (r.getD k .na)) && !(isNA (r.getD (k + 1) .na)) &&
          !(isNA (r.getD (k + 2) .na)) && !(isNA (r.getD (k + 3) .na))),
          ∃ sr, scoreRow k (k + 1) (k + 2) (k + 3) r = some sr ∧ sr.cells = r := by
        intro r hr
        obtain ⟨hr2, hcond⟩ := List.mem_filter.mp hr
        simp only [Bool.and_eq_true, Bool.not_eq_true'] at hcond
        obtain ⟨⟨⟨hna1, hna2⟩, hna3⟩, hna4⟩ := hcond
        obtain ⟨q1, hq1⟩ := cell_num_of (hnum0 r hr2) hna1
        obtain ⟨q2, hq2⟩ := cell_num_of (hnum 1 (by omega) r hr2) hna2
        obtain ⟨q3, hq3⟩ := cell_num_of (hnum 2 (by omega) r hr2) hna3
        obtain ⟨q4, hq4⟩ := cell_num_of (hnum 3 (by omega) r hr2) hna4
        exact ⟨_, by unfold scoreRow; rw [hq1, hq2, hq3, hq4], rfl⟩
      obtain ⟨l, hl, hmap⟩ := scoreRows_all_some _ hall
      refine ⟨l, ?_, ?_⟩
      · rw [hcd]
        exact hl
      · rw [hfilter]
        exact hmap
  next => cases h

/-- C5 witness: on the concrete table with an "N/A" delivery latitude,
the distance stage keeps exactly the fully-coordinated second row. -/
theorem C5_bad_cells_policy_witness :
    ∃ l, compute_distances tableWithBadCellNorm = some l ∧
      l.map (fun sr => sr.cells) =
        tableWithBadCellNorm.rows.filter
          (fun r => rowComplete tableWithBadCellNorm r) :=
  (C5_bad_cells_policy tableWithBadCell tableWithBadCellNorm (by decide)).2.2

/-- C6: the Result Set is exactly the scored rows with `distance_km`
strictly above the threshold, ordered by `distance_km` descending; in
particular three rows at 0.5 km, 1.5 km and 2.5 km with threshold 1.0
give exactly the rows [2.5, 1.5]. -/
theorem C6_result_set :
    (∀ (rows : List ScoredRow) (minKm : ℝ),
      (resultSet rows minKm).Perm (filterAbove minKm rows) ∧
      List.Sorted distGE (resultSet rows minKm) ∧
      (∀ sr, sr ∈ filterAbove minKm rows ↔ sr ∈ rows ∧ minKm < sr.distance_km)) ∧
    resultSet [scoredHalf, scoredOneHalf, scoredTwoHalf] 1 = [scoredTwoHalf, scoredOneHalf] := by
  constructor
  · intro rows minKm
    refine ⟨List.perm_insertionSort distGE _, List.sorted_insertionSort distGE _, ?_⟩
    intro sr
    simp [filterAbove, List.mem_filter]
  · have hf : filterAbove 1 [scoredHalf, scoredOneHalf, scoredTwoHalf] =
        [scoredOneHalf, scoredTwoHalf] := by
      norm_num [filterAbove, List.filter_cons, scoredHalf, scoredOneHalf, scoredTwoHalf]
    rw [resultSet, hf]
    norm_num [sortDesc, List.insertionSort, List.orderedInsert, distGE,
      scoredOneHalf, scoredTwoHalf]

/-- C6 witness: the 1.5 km row is in the filtered set at threshold 1. -/
theorem C6_result_set_witness :
    scoredOneHalf ∈ filterAbove 1 [scoredHalf, scoredOneHalf, scoredTwoHalf] :=
  ((C6_result_set.1 [scoredHalf, scoredOneHalf, scoredTwoHalf] 1).2.2 scoredOneHalf).mpr
    ⟨by simp, by norm_num [scoredOneHalf]⟩

end DeliveryChecker
